/-
Verification of the HasOne association (src/lib/associations/has-one.js).

The development shallowly embeds the association's data model and
operations: JavaScript objects become association lists over `String`
keys, JS values become the `Val` inductive (with `vundefined` for
`undefined`, capturing JS truthiness), the persistence engine becomes a
pure list-of-records database, and the asynchronous call sequence of
`set` becomes an explicit trace of persistence calls.
-/
import Mathlib

namespace HasOneSpec

/-- A JavaScript value as it appears in attribute positions: `undefined`,
`null`, booleans, integers and strings. -/
inductive Val where
  | vundefined
  | vnull
  | vbool (b : Bool)
  | vint (n : Int)
  | vstr (s : String)
deriving DecidableEq, Repr

/-- JS truthiness of a `Val` (`undefined`, `null`, `false`, `0`, `""` are falsy). -/
def Val.truthy : Val → Bool
  | .vundefined => false
  | .vnull => false
  | .vbool b => b
  | .vint n => n != 0
  | .vstr s => s != ""

/-- JS coercion of a value to an object-property key string. -/
def renderKey : Val → String
  | .vundefined => "undefined"
  | .vnull => "null"
  | .vbool b => if b then "true" else "false"
  | .vint n => toString n
  | .vstr s => s

/-- First-match lookup in an association list (JS object property read). -/
def alistLookup {α : Type} : List (String × α) → String → Option α
  | [], _ => none
  | (k, v) :: t, key => if k = key then some v else alistLookup t key

/-- JS object property write: overwrite the existing entry in place
(keeping insertion order) or append a fresh entry at the end. -/
def objInsert {α : Type} : List (String × α) → String → α → List (String × α)
  | [], k, v => [(k, v)]
  | (k0, v0) :: t, k, v =>
      if k0 = k then (k0, v) :: t else (k0, v0) :: objInsert t k v

/-- JS `a || b` on optional strings, with `""` counting as falsy. -/
def jsOrStr : Option String → Option String → Option String
  | some s, b => if s = "" then b else some s
  | none, b => b

/-- Keep an optional string only when it is JS-truthy (non-empty). -/
def strTruthy : Option String → Option String
  | some s => if s = "" then none else some s
  | none => none

/-- JS `a || d` on an optional string with a mandatory default. -/
def jsOrDefault : Option String → String → String
  | some s, d => if s = "" then d else s
  | none, d => d

/-- A persisted record: `attrs` are the raw stored values (`dataValues`);
`getters` model entity-level getter overrides observed by non-raw reads. -/
structure Rec where
  attrs : List (String × Val)
  getters : List (String × Val) := []
deriving DecidableEq, Repr

/-- `instance.get(key, {raw: true})`: the stored value, `undefined` when absent. -/
def Rec.rawGet (r : Rec) (k : String) : Val :=
  (alistLookup r.attrs k).getD .vundefined

/-- `instance.get(key)`: getter override when present, else the raw value. -/
def Rec.get (r : Rec) (k : String) : Val :=
  match alistLookup r.getters k with
  | some v => v
  | none => r.rawGet k

/-- `instance.set(key, v)` / `instance[key] = v`: write into the stored values. -/
def Rec.setAttr (r : Rec) (k : String) (v : Val) : Rec :=
  { r with attrs := objInsert r.attrs k v }

/-- One condition of a filter object: equality or an `Op.in` membership test. -/
inductive Cond where
  | ceq (v : Val)
  | cin (vs : List Val)
deriving DecidableEq, Repr

/-- A plain filter object: attribute name to condition. -/
abbrev WhereObj := List (String × Cond)

/-- A filter: a plain object or an `Op.and` conjunction. -/
inductive Where where
  | wobj (w : WhereObj)
  | wand (a b : Where)
deriving DecidableEq, Repr

/-- Does a stored value satisfy a condition? -/
def matchesCond (v : Val) : Cond → Bool
  | .ceq w => v == w
  | .cin vs => vs.contains v

/-- A record satisfies a filter object when every keyed condition holds
of its stored value for that key. -/
def Rec.matchesObj (r : Rec) (w : WhereObj) : Bool :=
  w.all fun kc => matchesCond (r.rawGet kc.1) kc.2

/-- A record satisfies a filter. -/
def Rec.matchesWhere (r : Rec) : Where → Bool
  | .wobj w => r.matchesObj w
  | .wand a b => r.matchesWhere a && r.matchesWhere b

/-- Attribute description inside a model's `rawAttributes`. -/
structure AttrSpec where
  type : Option String := none
  allowNull : Option Bool := none
  field : Option String := none
deriving DecidableEq, Repr

/-- The slice of the source model the association consumes. -/
structure SourceModel where
  name : String
  primaryKeyAttribute : String
  rawAttributes : List (String × AttrSpec)
deriving DecidableEq, Repr

/-- The slice of the target model the association consumes: key metadata,
schema, the default scope and the named scopes used by `Model.scope`. -/
structure TargetModel where
  primaryKeyAttribute : String := "id"
  primaryKeyAttributes : List String := ["id"]
  defaultScopeWhere : WhereObj := []
  namedScopes : List (Val × WhereObj) := []
  rawAttributes : List (String × AttrSpec) := []
deriving DecidableEq, Repr

/-- Explicit foreign key descriptor object (`options.foreignKey` as object). -/
structure FKDescriptor where
  name : Option String := none
  fieldName : Option String := none
  type : Option String := none
  allowNull : Option Bool := none
  field : Option String := none
deriving DecidableEq, Repr

/-- The `options.foreignKey` value: absent, a plain string, or a descriptor. -/
inductive ForeignKeyOption where
  | fkNone
  | fkStr (s : String)
  | fkObj (d : FKDescriptor)
deriving DecidableEq, Repr

/-- The resolved association descriptor (the fields of the constructed
`HasOne` instance the runtime operations read). -/
structure HasOneAssoc where
  foreignKey : String
  foreignKeyAttribute : FKDescriptor := {}
  sourceKey : String
  sourceKeyAttribute : String
  sourceKeyField : String := ""
  sourceKeyIsPrimary : Bool := false
  scope : List (String × Val) := []
  identifierField : Option String := none
deriving DecidableEq, Repr

/-- Options accepted by the Reader (`get`): own-property `scope` and
`schema` overrides plus an extra caller filter. -/
structure GetOptions where
  scope : Option Val := none
  schema : Option Val := none
  whereOpt : Option Where := none
deriving DecidableEq, Repr

inductive QueryKind where
  | findOne
  | findAll
deriving DecidableEq, Repr

/-- How the target query surface was resolved from the options. -/
inductive ScopeSetting where
  | scopedDefault
  | unscoped
  | named (v : Val)
deriving DecidableEq, Repr

/-- An abstract query sent to the persistence engine. -/
structure Query where
  kind : QueryKind
  scopeSetting : ScopeSetting
  schemaSetting : Option Val
  filter : Where
deriving DecidableEq, Repr

/-- `options.hasOwnProperty('scope')` handling in `get`: absent key keeps
the default scope, a falsy value unscopes, a truthy value names a scope. -/
def resolveScopeSetting (options : GetOptions) : ScopeSetting :=
  match options.scope with
  | some v => if v.truthy then .named v else .unscoped
  | none => .scopedDefault

/-- The filter contributed by the resolved scope setting. -/
def scopeWhereOf (tm : TargetModel) : ScopeSetting → WhereObj
  | .scopedDefault => tm.defaultScopeWhere
  | .unscoped => []
  | .named v =>
      match tm.namedScopes.find? (fun p => p.1 == v) with
      | some p => p.2
      | none => []

/-- Engine-side predicate: a record answers a query when it satisfies the
query filter and the filter of the resolved scope. -/
def queryMatches (tm : TargetModel) (q : Query) (r : Rec) : Bool :=
  r.matchesWhere q.filter && r.matchesObj (scopeWhereOf tm q.scopeSetting)

/-- `Model.findAll`. -/
def findAllQ (tm : TargetModel) (db : List Rec) (q : Query) : List Rec :=
  db.filter (queryMatches tm q)

/-- `Model.findOne`. -/
def findOneQ (tm : TargetModel) (db : List Rec) (q : Query) : Option Rec :=
  db.find? (queryMatches tm q)

/-- Association scope rendered as a filter object (plain values are
equality conditions). -/
def scopeAsWhere (scope : List (String × Val)) : WhereObj :=
  scope.map fun kv => (kv.1, Cond.ceq kv.2)

/-- Wrap the built filter with the caller filter: `{[Op.and]: [where, options.where]}`
when a caller filter is present, else the built filter alone. -/
def optWrap (w : Where) : Option Where → Where
  | some cw => .wand w cw
  | none => w

/-- Argument of the Reader: one source record or an array of them. -/
inductive GetInput where
  | single (r : Rec)
  | multi (rs : List Rec)
deriving DecidableEq, Repr

/-- Result payload of the Reader: one optional record, or the keyed table
of results in multi-record mode. -/
inductive GetOutput where
  | one (r : Option Rec)
  | table (m : List (String × Option Rec))
deriving DecidableEq, Repr

structure GetResult where
  queries : List Query
  output : GetOutput
  callerOptionsAfter : GetOptions
deriving DecidableEq, Repr

/-- `where[this.foreignKey] = ...`: equality against the (non-raw) source
key of the single record, or `Op.in` over the (non-raw) source keys of all
records, duplicates preserved. -/
def baseWhere (a : HasOneAssoc) (input : GetInput) : WhereObj :=
  match input with
  | .single inst => [(a.foreignKey, Cond.ceq (inst.get a.sourceKey))]
  | .multi rs => [(a.foreignKey, Cond.cin (rs.map fun i => i.get a.sourceKey))]

/-- `if (this.scope) _.assign(where, this.scope)` followed by the
`options.where` conjunction. -/
def builtFilter (a : HasOneAssoc) (base : WhereObj) (options : GetOptions) : Where :=
  optWrap (.wobj (a.scope.foldl (fun w kv => objInsert w kv.1 (Cond.ceq kv.2)) base)) options.whereOpt

/-- The single query `get` issues. -/
def builtQuery (a : HasOneAssoc) (input : GetInput) (options : GetOptions) : Query :=
  { kind := match input with | .single _ => .findOne | .multi _ => .findAll
    scopeSetting := resolveScopeSetting options
    schemaSetting := options.schema
    filter := builtFilter a (baseWhere a input) options }

/-- Rendered raw source-key value of a source record (multi-mode table key). -/
def sourceKeyRender (a : HasOneAssoc) (i : Rec) : String :=
  renderKey (i.rawGet a.sourceKey)

/-- Rendered raw foreign-key value of a found target record. -/
def foreignKeyRender (a : HasOneAssoc) (r : Rec) : String :=
  renderKey (r.rawGet a.foreignKey)

/-- `result[instance.get(this.sourceKey, {raw: true})] = null` for every
source record, in order. -/
def initialTable (a : HasOneAssoc) (rs : List Rec) : List (String × Option Rec) :=
  rs.foldl (fun m i => objInsert m (sourceKeyRender a i) none) []

/-- `result[instance.get(this.foreignKey, {raw: true})] = instance` for
every found record, over the initial table. -/
def filledTable (a : HasOneAssoc) (rs results : List Rec) : List (String × Option Rec) :=
  results.foldl (fun m r => objInsert m (foreignKeyRender a r) (some r)) (initialTable a rs)

/-- The Reader, `HasOne.prototype.get`. The options are deep-cloned by the
source before use, so the caller's options come back unchanged. -/
def HasOne.get (a : HasOneAssoc) (tm : TargetModel) (db : List Rec)
    (input : GetInput) (options : GetOptions) : GetResult :=
  let q := builtQuery a input options
  match input with
  | .multi rs =>
      { queries := [q]
        output := .table (filledTable a rs (findAllQ tm db q))
        callerOptionsAfter := options }
  | .single _ =>
      { queries := [q]
        output := .one (findOneQ tm db q)
        callerOptionsAfter := options }

/-- The Writer's candidate argument: a full target instance or a bare
primary-key value (`null`/`undefined` are the bare values `vnull`/`vundefined`). -/
inductive Candidate where
  | inst (r : Rec)
  | raw (v : Val)
deriving DecidableEq, Repr

/-- JS truthiness of the candidate (object instances are always truthy). -/
def Candidate.truthy : Candidate → Bool
  | .inst _ => true
  | .raw v => v.truthy

/-- `associatedInstance.get ? associatedInstance.get(attribute, {raw: true})
: associatedInstance`: raw attribute read on an instance, the bare value
itself otherwise. -/
def candidateGet (c : Candidate) (attr : String) : Val :=
  match c with
  | .inst r => r.rawGet attr
  | .raw v => v

/-- One persistence (`save`) call recorded by the Writer, with the
option overrides the source attaches to it. -/
structure SaveCall where
  record : Rec
  onlyFields : Option (List String) := none
  allowNull : List String := []
  associationInternal : Bool := false
deriving DecidableEq, Repr

structure SetResult where
  readQueries : List Query
  oldInstance : Option Rec
  writes : List SaveCall
  result : Option Rec
deriving DecidableEq, Repr

/-- The initial read of `set`: the getter invoked with the caller options
overridden by `{scope: false}`. -/
def readOldInstance (a : HasOneAssoc) (tm : TargetModel) (db : List Rec)
    (sourceInstance : Rec) (options : GetOptions) : Option Rec :=
  match (HasOne.get a tm db (.single sourceInstance)
      { options with scope := some (.vbool false) }).output with
  | .one r => r
  | .table _ => none

/-- `alreadyAssociated`: the old instance exists, the candidate is truthy,
and every target primary-key attribute agrees on raw values. -/
def alreadyAssociatedCheck (tm : TargetModel) (oldInstance : Option Rec) (c : Candidate) : Bool :=
  match oldInstance with
  | some old =>
      c.truthy && tm.primaryKeyAttributes.all fun attr => old.rawGet attr == candidateGet c attr
  | none => false

/-- The detach persistence call: the old instance with its foreign key
nulled, saved with `fields`/`allowNull` restricted to the foreign key and
marked association-internal. Empty when there is nothing to detach or the
candidate is already associated. -/
def detachWrites (a : HasOneAssoc) (oldInstance : Option Rec) (already : Bool) : List SaveCall :=
  match oldInstance with
  | some old =>
      if already then []
      else
        [{ record := old.setAttr a.foreignKey .vnull
           onlyFields := some [a.foreignKey]
           allowNull := [a.foreignKey]
           associationInternal := true }]
  | none => []

/-- The record the attach step saves: a bare key is materialized as a
target instance keyed by the target primary key, the relationship scope is
assigned over it, and the foreign key is set to the source's source-key
value (non-raw read). -/
def attachRecord (a : HasOneAssoc) (tm : TargetModel) (sourceInstance : Rec)
    (c : Candidate) : Rec :=
  let base : Rec :=
    match c with
    | .inst r => r
    | .raw v => { attrs := [(tm.primaryKeyAttribute, v)] }
  let withScope := a.scope.foldl (fun r kv => r.setAttr kv.1 kv.2) base
  withScope.setAttr a.foreignKey (sourceInstance.get a.sourceKeyAttribute)

/-- The persistence calls of `set` (detach first, then attach) and its
resolution value, given the already-read old instance. -/
def setWrites (a : HasOneAssoc) (tm : TargetModel) (sourceInstance : Rec)
    (oldInstance : Option Rec) (c : Candidate) : List SaveCall × Option Rec :=
  let already := alreadyAssociatedCheck tm oldInstance c
  let dw := detachWrites a oldInstance already
  if c.truthy && !already then
    let attached := attachRecord a tm sourceInstance c
    (dw ++ [{ record := attached }], some attached)
  else
    (dw, none)

/-- The Writer, `HasOne.prototype.set`. -/
def HasOne.set (a : HasOneAssoc) (tm : TargetModel) (db : List Rec)
    (sourceInstance : Rec) (c : Candidate) (options : GetOptions) : SetResult :=
  let oldI := readOldInstance a tm db sourceInstance options
  { readQueries := (HasOne.get a tm db (.single sourceInstance)
      { options with scope := some (.vbool false) }).queries
    oldInstance := oldI
    writes := (setWrites a tm sourceInstance oldI c).1
    result := (setWrites a tm sourceInstance oldI c).2 }

/-- Failures the target's `create` can surface. -/
inductive EngineError where
  | validation (msg : String)
  | constraintViolation (msg : String)
deriving DecidableEq, Repr

/-- Outcome of the Creator: the `values`/`fields` payload handed to
`target.create`, the caller-visible objects after the call (the source
mutates the caller's objects in place), and the delegated result. -/
structure CreateResult where
  payloadValues : List (String × Val)
  payloadFields : Option (List String)
  callerValuesAfter : List (String × Val)
  callerFieldsAfter : Option (List String)
  created : Except EngineError Rec
deriving Repr

/-- The Creator, `HasOne.prototype.create`: scope values are written into
`values` (each scope key pushed onto `options.fields` when present), then
the foreign key is set to the source's source-key value (also pushed), and
the call delegates to `target.create`. -/
def HasOne.create (a : HasOneAssoc)
    (engineCreate : List (String × Val) → Option (List String) → Except EngineError Rec)
    (sourceInstance : Rec) (values : List (String × Val))
    (fields : Option (List String)) : CreateResult :=
  let merged := a.scope.foldl
    (fun (acc : List (String × Val) × Option (List String)) kv =>
      (objInsert acc.1 kv.1 kv.2, acc.2.map (fun fs => fs ++ [kv.1])))
    (values, fields)
  let finalValues := objInsert merged.1 a.foreignKey (sourceInstance.get a.sourceKeyAttribute)
  let finalFields := merged.2.map (fun fs => fs ++ [a.foreignKey])
  { payloadValues := finalValues
    payloadFields := finalFields
    callerValuesAfter := finalValues
    callerFieldsAfter := finalFields
    created := engineCreate finalValues finalFields }

/-- Declaration-time failures of the constructor. `missingSourceAttr`
models the JS `TypeError` raised by reading `.field` of an absent
attribute entry. -/
inductive DeclError where
  | unknownAttribute (attr : String) (modelName : String)
  | missingSourceAttr (attr : String)
deriving DecidableEq, Repr

/-- Options of the `hasOne` declaration consumed by the constructor. -/
structure HasOneOptions where
  asOpt : Option String := none
  foreignKey : ForeignKeyOption := .fkNone
  sourceKey : Option String := none
  scope : List (String × Val) := []
deriving DecidableEq, Repr

/-- Foreign key name resolution of the constructor: a truthy
`name || fieldName` of a descriptor object, else a truthy foreign key
string, else `camelize(singularize(options.as || source.name) + "_" +
source.primaryKeyAttribute)`. -/
def computeForeignKey (camelize singularize : String → String)
    (sourceName sourcePK : String) (asOpt : Option String)
    (fkOpt : ForeignKeyOption) : String :=
  let fk0 : Option String :=
    match fkOpt with
    | .fkObj d => jsOrStr d.name d.fieldName
    | .fkStr s => some s
    | .fkNone => none
  match strTruthy fk0 with
  | some s => s
  | none => camelize (singularize (jsOrDefault asOpt sourceName) ++ "_" ++ sourcePK)

/-- The constructor, `new HasOne(source, target, options)`: resolves the
foreign key name, validates `options.sourceKey` against the source schema,
and fills the source-key and identifier metadata. -/
def mkHasOne (camelize singularize : String → String) (source : SourceModel)
    (target : TargetModel) (options : HasOneOptions) : Except DeclError HasOneAssoc :=
  let fkAttr : FKDescriptor :=
    match options.foreignKey with
    | .fkObj d => d
    | _ => {}
  let foreignKey := computeForeignKey camelize singularize source.name
    source.primaryKeyAttribute options.asOpt options.foreignKey
  if (match options.sourceKey with
      | some k => k != "" && (alistLookup source.rawAttributes k).isNone
      | none => false) then
    .error (.unknownAttribute ((options.sourceKey).getD "") source.name)
  else
    let sourceKey :=
      match options.sourceKey with
      | some k => if k = "" then source.primaryKeyAttribute else k
      | none => source.primaryKeyAttribute
    match alistLookup source.rawAttributes sourceKey with
    | none => .error (.missingSourceAttr sourceKey)
    | some attr =>
        .ok { foreignKey
              foreignKeyAttribute := fkAttr
              sourceKey
              sourceKeyAttribute := sourceKey
              sourceKeyField := jsOrDefault attr.field sourceKey
              sourceKeyIsPrimary := sourceKey == source.primaryKeyAttribute
              scope := options.scope
              identifierField := (alistLookup target.rawAttributes foreignKey).map
                (fun t => jsOrDefault t.field foreignKey) }

/-- Options of `_injectAttributes`. -/
structure InjectOptions where
  keyType : Option String := none
  constraints : Option Bool := none
  onDelete : Option String := none
  onUpdate : Option String := none
deriving DecidableEq, Repr

/-- `_.defaults({}, this.foreignKeyAttribute, {type: keyType || sourceKeyType,
allowNull: true})`: the merged foreign-key attribute spec. -/
def mergedForeignKeyAttr (a : HasOneAssoc) (source : SourceModel)
    (opts : InjectOptions) : AttrSpec :=
  let sourceType : Option String :=
    match alistLookup source.rawAttributes a.sourceKey with
    | some attr => attr.type
    | none => none
  { type := a.foreignKeyAttribute.type <|> (opts.keyType <|> sourceType)
    allowNull := some (a.foreignKeyAttribute.allowNull.getD true)
    field := a.foreignKeyAttribute.field }

/-- Lodash `_.merge` of one attribute spec over another (defined source
fields win). -/
def mergeAttr (oldA newA : AttrSpec) : AttrSpec :=
  { type := newA.type <|> oldA.type
    allowNull := newA.allowNull <|> oldA.allowNull
    field := newA.field <|> oldA.field }

/-- JS truthiness of `attr.allowNull` (absent counts as falsy). -/
def attrNullTruthy (t : AttrSpec) : Bool :=
  t.allowNull == some true

structure InjectResult where
  newAttribute : AttrSpec
  onDelete : Option String
  onUpdate : Option String
  targetRawAttributes : List (String × AttrSpec)
  identifierField : String
deriving DecidableEq, Repr

/-- The Constraint Injector, `HasOne.prototype._injectAttributes`: builds
the merged foreign-key attribute, fills the referential-action defaults
(checking nullability on the pre-existing target attribute when one
exists, else on the merged spec), merges the attribute into the target
schema, and resolves the identifier field. -/
def HasOne.injectAttributes (a : HasOneAssoc) (source : SourceModel)
    (targetRaw : List (String × AttrSpec)) (opts : InjectOptions) : InjectResult :=
  let newAttr := mergedForeignKeyAttr a source opts
  let onDel :=
    if opts.constraints = some false then opts.onDelete
    else
      let t := (alistLookup targetRaw a.foreignKey).getD newAttr
      some (jsOrDefault opts.onDelete (if attrNullTruthy t then "SET NULL" else "CASCADE"))
  let onUpd :=
    if opts.constraints = some false then opts.onUpdate
    else some (jsOrDefault opts.onUpdate "CASCADE")
  let merged :=
    match alistLookup targetRaw a.foreignKey with
    | some oldAttr => objInsert targetRaw a.foreignKey (mergeAttr oldAttr newAttr)
    | none => targetRaw ++ [(a.foreignKey, newAttr)]
  { newAttribute := newAttr
    onDelete := onDel
    onUpdate := onUpd
    targetRawAttributes := merged
    identifierField := jsOrDefault ((alistLookup merged a.foreignKey).getD newAttr).field a.foreignKey }

/-- The foreign-key naming rule exactly as the specification states it
(claim C2): a supplied descriptor object contributes its `name` (or
`fieldName`) verbatim, a supplied string is used as-is, and only in the
absence of both is the name derived. `none` means the stated rule
prescribes no name. -/
def claimedForeignKeyRule (camelize singularize : String → String)
    (sourceName sourcePK : String) (asOpt : Option String)
    (fkOpt : ForeignKeyOption) : Option String :=
  match fkOpt with
  | .fkObj d => d.name <|> d.fieldName
  | .fkStr s => some s
  | .fkNone => some (camelize (singularize (asOpt.getD sourceName) ++ "_" ++ sourcePK))

/-- The foreign-key naming rule as amended: a descriptor's truthy `name`
(else truthy `fieldName`) wins, a non-empty string wins, and every other
shape (including a descriptor with neither field, and empty strings)
falls through to the derived camelized name. -/
def amendedForeignKeyRule (camelize singularize : String → String)
    (sourceName sourcePK : String) (asOpt : Option String)
    (fkOpt : ForeignKeyOption) : String :=
  let derived := camelize (singularize (jsOrDefault asOpt sourceName) ++ "_" ++ sourcePK)
  match fkOpt with
  | .fkObj d =>
      match strTruthy d.name with
      | some n => n
      | none =>
          match strTruthy d.fieldName with
          | some f => f
          | none => derived
  | .fkStr s => if s = "" then derived else s
  | .fkNone => derived

/-- The `onDelete` default exactly as the specification states it
(claim C4): chosen by the nullability of the merged foreign-key attribute
spec. -/
def claimedOnDeleteChoice (a : HasOneAssoc) (source : SourceModel)
    (opts : InjectOptions) : String :=
  if (mergedForeignKeyAttr a source opts).allowNull = some true then "SET NULL" else "CASCADE"

/-- The multi-record table of a Reader result (empty for single mode). -/
def tableOf (g : GetResult) : List (String × Option Rec) :=
  match g.output with
  | .table m => m
  | .one _ => []

/- Concrete fixtures used to instantiate the verified statements. -/

/-- A Profile-hasOne-Address style association without a relationship scope. -/
def pAssoc : HasOneAssoc :=
  { foreignKey := "profileId", sourceKey := "id", sourceKeyAttribute := "id"
    sourceKeyField := "id" }

/-- The same association with a relationship scope on `kind`. -/
def sAssoc : HasOneAssoc :=
  { pAssoc with scope := [("kind", .vstr "primary")] }

/-- A target model whose primary key is `pid`. -/
def pTM : TargetModel :=
  { primaryKeyAttribute := "pid", primaryKeyAttributes := ["pid"] }

/-- A source record with `id = 1`. -/
def userRec : Rec := { attrs := [("id", .vint 1)] }

/-- A source record with `id = 2`. -/
def userRec2 : Rec := { attrs := [("id", .vint 2)] }

/-- A linked target record whose primary key is the integer 0. -/
def exOldZero : Rec := { attrs := [("pid", .vint 0), ("profileId", .vint 1)] }

/-- A linked target record whose primary key is the integer 7. -/
def exOldSeven : Rec := { attrs := [("pid", .vint 7), ("profileId", .vint 1)] }

/-- Association whose relationship scope collides with its own foreign key. -/
def cAssoc : HasOneAssoc :=
  { foreignKey := "k", sourceKey := "id", sourceKeyAttribute := "id"
    scope := [("k", .vint 5)] }

/-- Source record for the scope-collision scenario. -/
def cInst : Rec := { attrs := [("id", .vint 3)] }

/-- A target record with `k = 5` (matches the scope, not the source key). -/
def cRec : Rec := { attrs := [("k", .vint 5)] }

/-- Association with foreign key `fk` over source key `id`. -/
def c4Assoc : HasOneAssoc :=
  { foreignKey := "fk", sourceKey := "id", sourceKeyAttribute := "id" }

/-- Source model with integer primary key `id`. -/
def c4Source : SourceModel :=
  { name := "user", primaryKeyAttribute := "id"
    rawAttributes := [("id", { type := some "INTEGER" })] }

/-- Target schema already carrying a non-nullable `fk` attribute. -/
def c4TargetRaw : List (String × AttrSpec) := [("fk", { allowNull := some false })]

/-- A trivial engine `create` that stores the payload values as a record. -/
def okEngineCreate (vs : List (String × Val)) (_ : Option (List String)) :
    Except EngineError Rec :=
  .ok { attrs := vs }

/- ------------------------------------------------------------------ -/
/- Generic lemmas about JS-object association lists.                   -/
/- ------------------------------------------------------------------ -/

theorem objInsert_of_not_mem {α : Type} {m : List (String × α)} {k : String} (v : α)
    (h : k ∉ m.map Prod.fst) : objInsert m k v = m ++ [(k, v)] := by
  induction m with
  | nil => rfl
  | cons p t ih =>
    obtain ⟨k0, v0⟩ := p
    simp only [List.map_cons, List.mem_cons, not_or] at h
    simp only [objInsert, if_neg (Ne.symm h.1)]
    rw [ih h.2]
    rfl

theorem fst_objInsert_of_mem {α : Type} {m : List (String × α)} {k : String} (v : α)
    (h : k ∈ m.map Prod.fst) : (objInsert m k v).map Prod.fst = m.map Prod.fst := by
  induction m with
  | nil => simp at h
  | cons p t ih =>
    obtain ⟨k0, v0⟩ := p
    by_cases hk : k0 = k
    · simp [objInsert, hk]
    · simp only [List.map_cons, List.mem_cons] at h
      rcases h with h | h

      · exact absurd h.symm hk
      · simp [objInsert, hk, ih h]

theorem mem_objInsert {α : Type} {m : List (String × α)} {k : String} {v : α}
    {p : String × α} (h : p ∈ objInsert m k v) : p = (k, v) ∨ p ∈ m := by
  induction m with
  | nil => simpa [objInsert] using h
  | cons q t ih =>
    obtain ⟨k0, v0⟩ := q
    by_cases hk : k0 = k
    · subst hk
      simp only [objInsert, if_pos rfl, if_true, List.mem_cons] at h
      rcases h with h | h
      · exact Or.inl h
      · exact Or.inr (List.mem_cons_of_mem _ h)
    · simp only [objInsert, if_neg hk, List.mem_cons] at h
      rcases h with h | h
      · exact Or.inr (by simp [h])
      · rcases ih h with h2 | h2
        · exact Or.inl h2
        · exact Or.inr (List.mem_cons_of_mem _ h2)

theorem alistLookup_objInsert_self {α : Type} (m : List (String × α)) (k : String) (v : α) :
    alistLookup (objInsert m k v) k = some v := by
  induction m with
  | nil => simp [objInsert, alistLookup]
  | cons p t ih =>
    obtain ⟨k0, v0⟩ := p
    by_cases hk : k0 = k
    · simp [objInsert, hk, alistLookup]
    · simp [objInsert, hk, alistLookup, ih]

theorem alistLookup_objInsert_ne {α : Type} {m : List (String × α)} {k key : String} (v : α)
    (h : key ≠ k) : alistLookup (objInsert m k v) key = alistLookup m key := by
  induction m with
  | nil => simp [objInsert, alistLookup, Ne.symm h]
  | cons p t ih =>
    obtain ⟨k0, v0⟩ := p
    by_cases hk : k0 = k
    · subst hk
      simp [objInsert, alistLookup, Ne.symm h]
    · by_cases hkey : k0 = key
      · subst hkey
        simp [objInsert, hk, alistLookup]
      · simp [objInsert, hk, alistLookup, hkey, ih]

theorem alistLookup_of_mem_nodup {α : Type} {m : List (String × α)} {k : String} {v : α}
    (h : (k, v) ∈ m) (hnd : (m.map Prod.fst).Nodup) : alistLookup m k = some v := by
  induction m with
  | nil => simp at h
  | cons p t ih =>
    obtain ⟨k0, v0⟩ := p
    simp only [List.map_cons, List.nodup_cons] at hnd
    rcases List.mem_cons.mp h with h | h
    · rw [Prod.mk.injEq] at h
      obtain ⟨h1, h2⟩ := h
      subst h1
      subst h2
      simp [alistLookup]
    · have hne : k0 ≠ k := by
        intro hk
        subst hk
        exact hnd.1 (List.mem_map_of_mem Prod.fst h)
      simp [alistLookup, hne, ih h hnd.2]

/-- Folding fresh-keyed inserts over a JS object appends the entries in
order. -/
theorem foldFreshAppend {α β : Type} (f : β → String) (g : β → α) :
    ∀ (xs : List β) (m : List (String × α)),
      (∀ x ∈ xs, f x ∉ m.map Prod.fst) → (xs.map f).Nodup →
      xs.foldl (fun acc x => objInsert acc (f x) (g x)) m
        = m ++ xs.map (fun x => (f x, g x)) := by
  intro xs
  induction xs with
  | nil => intro m _ _; simp
  | cons x t ih =>
    intro m hfresh hnd
    simp only [List.map_cons, List.nodup_cons] at hnd
    have hx : f x ∉ m.map Prod.fst := hfresh x (List.mem_cons_self x t)
    simp only [List.foldl_cons]
    rw [objInsert_of_not_mem (g x) hx]
    rw [ih (m ++ [(f x, g x)]) ?fresh hnd.2]
    · simp
    case fresh =>
      intro y hy
      simp only [List.map_append, List.mem_append, List.map_cons, List.map_nil,
        List.mem_singleton, not_or]
      constructor
      · exact hfresh y (List.mem_cons_of_mem x hy)
      · intro hcontra
        exact hnd.1 (hcontra ▸ List.mem_map_of_mem f hy)

/-- Filling a table whose keys already cover the written keys preserves
the key list and the per-entry invariant that a filled value is keyed by
its own rendered value. -/
theorem fillFoldInvariant (rf : Rec → String) :
    ∀ (results : List Rec) (m : List (String × Option Rec)),
      (∀ r ∈ results, rf r ∈ m.map Prod.fst) →
      (∀ p ∈ m, p.2 = none ∨ ∃ r, p.2 = some r ∧ rf r = p.1) →
      ((results.foldl (fun acc r => objInsert acc (rf r) (some r)) m).map Prod.fst
          = m.map Prod.fst ∧
        ∀ p ∈ results.foldl (fun acc r => objInsert acc (rf r) (some r)) m,
          p.2 = none ∨ ∃ r, p.2 = some r ∧ rf r = p.1) := by
  intro results
  induction results with
  | nil => intro m _ hinv; exact ⟨rfl, hinv⟩
  | cons r t ih =>
    intro m hmem hinv
    have hr : rf r ∈ m.map Prod.fst := hmem r (List.mem_cons_self r t)
    have hkeys : (objInsert m (rf r) (some r)).map Prod.fst = m.map Prod.fst :=
      fst_objInsert_of_mem (some r) hr
    have hinv2 : ∀ p ∈ objInsert m (rf r) (some r),
        p.2 = none ∨ ∃ r2, p.2 = some r2 ∧ rf r2 = p.1 := by
      intro p hp
      rcases mem_objInsert hp with h | h
      · exact Or.inr ⟨r, by simp [h]⟩
      · exact hinv p h
    have hmem2 : ∀ r2 ∈ t, rf r2 ∈ (objInsert m (rf r) (some r)).map Prod.fst := by
      intro r2 hr2
      rw [hkeys]
      exact hmem r2 (List.mem_cons_of_mem r hr2)
    simp only [List.foldl_cons]
    obtain ⟨hk, hi⟩ := ih (objInsert m (rf r) (some r)) hmem2 hinv2
    exact ⟨hk.trans hkeys, hi⟩

/-- Looking a key up after folding a uniquely-keyed object's entries into
an accumulator: the folded object wins where it has the key. -/
theorem foldInsertLookup {α : Type} :
    ∀ (scope : List (String × α)) (acc : List (String × α)) (k : String),
      (scope.map Prod.fst).Nodup →
      alistLookup (scope.foldl (fun vs kv => objInsert vs kv.1 kv.2) acc) k
        = match alistLookup scope k with
          | some v => some v
          | none => alistLookup acc k := by
  intro scope
  induction scope with
  | nil => intro acc k _; rfl
  | cons kv t ih =>
    intro acc k hnd
    obtain ⟨k0, v0⟩ := kv
    simp only [List.map_cons, List.nodup_cons] at hnd
    simp only [List.foldl_cons]
    rw [ih (objInsert acc k0 v0) k hnd.2]
    by_cases hk : k0 = k
    · subst hk
      have ht : alistLookup t k0 = none := by
        cases hlt : alistLookup t k0 with
        | none => rfl
        | some w =>
          exfalso
          apply hnd.1
          clear ih hnd
          induction t with
          | nil => simp [alistLookup] at hlt
          | cons q s ihs =>
            obtain ⟨kq, vq⟩ := q
            by_cases hq : kq = k0
            · simp [hq]
            · simp only [alistLookup, if_neg hq] at hlt
              simp [ihs hlt]
      simp [alistLookup, ht, alistLookup_objInsert_self]
    · simp only [alistLookup, if_neg hk]
      cases hlt : alistLookup t k with
      | none => simp [alistLookup_objInsert_ne v0 (Ne.symm hk)]
      | some w => simp

theorem matchesObj_append (r : Rec) (w1 w2 : WhereObj) :
    r.matchesObj (w1 ++ w2) = (r.matchesObj w1 && r.matchesObj w2) := by
  simp [Rec.matchesObj, List.all_append]

/-- Assigning the relationship scope over a filter object with disjoint
keys appends the scope's equality conditions. -/
theorem scopeFoldAppend (scope : List (String × Val)) (base : WhereObj)
    (hfresh : ∀ kv ∈ scope, kv.1 ∉ base.map Prod.fst)
    (hnd : (scope.map Prod.fst).Nodup) :
    scope.foldl (fun w kv => objInsert w kv.1 (Cond.ceq kv.2)) base
      = base ++ scopeAsWhere scope := by
  exact foldFreshAppend Prod.fst (fun kv => Cond.ceq kv.2) scope base hfresh hnd

/-- The initial multi-record table has one null entry per source record,
in order, when the rendered raw source keys are distinct. -/
theorem initialTableEq (a : HasOneAssoc) (rs : List Rec)
    (hnd : (rs.map (sourceKeyRender a)).Nodup) :
    initialTable a rs = rs.map fun i => (sourceKeyRender a i, (none : Option Rec)) := by
  have h := foldFreshAppend (sourceKeyRender a) (fun _ => (none : Option Rec)) rs []
    (by intro x _ hx; simp at hx) hnd
  simpa [initialTable] using h

/-- The interleaved scope fold of `create` splits into the values fold and
the fields extension. -/
theorem createFoldSplit (scope : List (String × Val)) (values : List (String × Val))
    (fields : Option (List String)) :
    scope.foldl
        (fun (acc : List (String × Val) × Option (List String)) kv =>
          (objInsert acc.1 kv.1 kv.2, acc.2.map fun fs => fs ++ [kv.1]))
        (values, fields)
      = (scope.foldl (fun vs kv => objInsert vs kv.1 kv.2) values,
         fields.map fun fs => fs ++ scope.map Prod.fst) := by
  induction scope generalizing values fields with
  | nil => simp
  | cons kv t ih =>
    simp only [List.foldl_cons]
    rw [ih]
    refine Prod.ext rfl ?_
    cases fields with
    | none => rfl
    | some fs => simp

/- Structural facts about the embedded operations. -/

theorem get_queries (a : HasOneAssoc) (tm : TargetModel) (db : List Rec)
    (input : GetInput) (options : GetOptions) :
    (HasOne.get a tm db input options).queries = [builtQuery a input options] := by
  cases input <;> rfl

theorem get_output_multi (a : HasOneAssoc) (tm : TargetModel) (db : List Rec)
    (rs : List Rec) (options : GetOptions) :
    (HasOne.get a tm db (.multi rs) options).output
      = .table (filledTable a rs (findAllQ tm db (builtQuery a (.multi rs) options))) := rfl

theorem get_output_single (a : HasOneAssoc) (tm : TargetModel) (db : List Rec)
    (i : Rec) (options : GetOptions) :
    (HasOne.get a tm db (.single i) options).output
      = .one (findOneQ tm db (builtQuery a (.single i) options)) := rfl

theorem get_callerOptionsAfter (a : HasOneAssoc) (tm : TargetModel) (db : List Rec)
    (input : GetInput) (options : GetOptions) :
    (HasOne.get a tm db input options).callerOptionsAfter = options := by
  cases input <;> rfl

theorem set_oldInstance_eq (a : HasOneAssoc) (tm : TargetModel) (db : List Rec)
    (src : Rec) (c : Candidate) (options : GetOptions) :
    (HasOne.set a tm db src c options).oldInstance
      = readOldInstance a tm db src options := rfl

theorem set_writes_eq (a : HasOneAssoc) (tm : TargetModel) (db : List Rec)
    (src : Rec) (c : Candidate) (options : GetOptions) :
    (HasOne.set a tm db src c options).writes
      = (setWrites a tm src (readOldInstance a tm db src options) c).1 := rfl

theorem set_result_eq (a : HasOneAssoc) (tm : TargetModel) (db : List Rec)
    (src : Rec) (c : Candidate) (options : GetOptions) :
    (HasOne.set a tm db src c options).result
      = (setWrites a tm src (readOldInstance a tm db src options) c).2 := rfl

theorem set_readQueries_eq (a : HasOneAssoc) (tm : TargetModel) (db : List Rec)
    (src : Rec) (c : Candidate) (options : GetOptions) :
    (HasOne.set a tm db src c options).readQueries
      = [builtQuery a (.single src) { options with scope := some (.vbool false) }] := rfl

/- ------------------------------------------------------------------ -/
/- Claim C2: foreign key naming rules.                                 -/
/- ------------------------------------------------------------------ -/

/-- Claim C2, counterexample: a foreign-key descriptor object carrying
neither `name` nor `fieldName` does not contribute a verbatim name — the
constructor falls through to the derived `camelize(singularize(source) +
"_" + pk)` name, so the stated rule (descriptor always used verbatim, and
derivation only in the absence of any explicit option) is false at
`foreignKey = {}`. -/
theorem computeForeignKey_claimRule_counterexample :
    some (computeForeignKey (fun s => s) (fun s => s) "user" "id" none (.fkObj {}))
      ≠ claimedForeignKeyRule (fun s => s) (fun s => s) "user" "id" none (.fkObj {}) := by
  decide

/-- Claim C2 (amended): the foreign key name is computed by these rules in
order — a descriptor object's truthy `name` (else its truthy `fieldName`)
is used; else a non-empty foreign key string is used; in every other case
(no option, empty strings, a descriptor with neither field) the name is
`camelize(singularize(alias-or-source-name) + "_" + source primary key)`,
an empty alias also falling back to the source name. -/
theorem computeForeignKey_amendedRule (camelize singularize : String → String)
    (sourceName sourcePK : String) (asOpt : Option String) (fkOpt : ForeignKeyOption) :
    computeForeignKey camelize singularize sourceName sourcePK asOpt fkOpt
      = amendedForeignKeyRule camelize singularize sourceName sourcePK asOpt fkOpt := by
  cases fkOpt with
  | fkNone => rfl
  | fkStr s =>
    by_cases h : s = "" <;>
      simp [computeForeignKey, amendedForeignKeyRule, strTruthy, h]
  | fkObj d =>
    cases hn : d.name with
    | none =>
      cases hf : d.fieldName with
      | none =>
        simp [computeForeignKey, amendedForeignKeyRule, jsOrStr, strTruthy, hn, hf]
      | some f =>
        by_cases hfe : f = "" <;>
          simp [computeForeignKey, amendedForeignKeyRule, jsOrStr, strTruthy, hn, hf, hfe]
    | some n =>
      by_cases hne : n = ""
      · cases hf : d.fieldName with
        | none =>
          simp [computeForeignKey, amendedForeignKeyRule, jsOrStr, strTruthy, hn, hf, hne]
        | some f =>
          by_cases hfe : f = "" <;>
            simp [computeForeignKey, amendedForeignKeyRule, jsOrStr, strTruthy, hn, hf, hne, hfe]
      · simp [computeForeignKey, amendedForeignKeyRule, jsOrStr, strTruthy, hn, hne]

/- ------------------------------------------------------------------ -/
/- Claim C3: sourceKey validation at declaration time.                 -/
/- ------------------------------------------------------------------ -/

/-- Claim C3: a declaration whose explicit `sourceKey` names an attribute
absent from the source schema fails synchronously with the
unknown-attribute error; with no `sourceKey` option the declaration
succeeds (given the source primary key is a schema attribute, which the
attribute registry guarantees) and resolves the source key to the source
primary key. -/
theorem mkHasOne_sourceKeyRule :
    (∀ (camelize singularize : String → String) (source : SourceModel)
        (target : TargetModel) (options : HasOneOptions) (k : String),
      options.sourceKey = some k → k ≠ "" →
      alistLookup source.rawAttributes k = none →
      mkHasOne camelize singularize source target options
        = .error (.unknownAttribute k source.name)) ∧
    (∀ (camelize singularize : String → String) (source : SourceModel)
        (target : TargetModel) (options : HasOneOptions) (attr : AttrSpec),
      options.sourceKey = none →
      alistLookup source.rawAttributes source.primaryKeyAttribute = some attr →
      ∃ assoc, mkHasOne camelize singularize source target options = .ok assoc ∧
        assoc.sourceKey = source.primaryKeyAttribute ∧
        assoc.sourceKeyAttribute = source.primaryKeyAttribute) := by
  constructor
  · intro camelize singularize source target options k h1 h2 h3
    have h2b : (k != "") = true := by simpa using h2
    simp [mkHasOne, h1, h2b, h3]
  · intro camelize singularize source target options attr h1 h2
    simp only [mkHasOne, h1]
    rw [if_neg (by simp)]
    rw [h2]
    exact ⟨_, rfl, rfl, rfl⟩

/-- Witness for C3 at a concrete schema: `sourceKey: "nope"` on a model
that only has `id` throws the unknown-attribute error, and the same
declaration without `sourceKey` succeeds with source key `id`. -/
theorem mkHasOne_sourceKeyRule_witness :
    (mkHasOne (fun s => s) (fun s => s) c4Source {} { sourceKey := some "nope" }
      = .error (.unknownAttribute "nope" "user")) ∧
    (∃ assoc, mkHasOne (fun s => s) (fun s => s) c4Source {} {} = .ok assoc ∧
      assoc.sourceKey = "id" ∧ assoc.sourceKeyAttribute = "id") :=
  ⟨mkHasOne_sourceKeyRule.1 (fun s => s) (fun s => s) c4Source {}
      { sourceKey := some "nope" } "nope" rfl (by decide) (by decide),
    mkHasOne_sourceKeyRule.2 (fun s => s) (fun s => s) c4Source {} {}
      { type := some "INTEGER" } rfl (by decide)⟩

/- ------------------------------------------------------------------ -/
/- Claim C4: referential-action defaults at injection time.            -/
/- ------------------------------------------------------------------ -/

/-- Claim C4, counterexample: when the foreign key already exists on the
target schema as a non-nullable attribute, the code checks nullability on
that pre-existing attribute (giving `CASCADE`), not on the merged
foreign-key spec (whose default `allowNull: true` would give `SET NULL`),
so the claim's merged-spec rule is false there. -/
theorem injectAttributes_mergedSpec_counterexample :
    (HasOne.injectAttributes c4Assoc c4Source c4TargetRaw {}).onDelete = some "CASCADE" ∧
    claimedOnDeleteChoice c4Assoc c4Source {} = "SET NULL" ∧
    (HasOne.injectAttributes c4Assoc c4Source c4TargetRaw {}).onDelete
      ≠ some (claimedOnDeleteChoice c4Assoc c4Source {}) := by
  decide

/-- Claim C4 (amended): with constraints enabled and no explicit
`onDelete`/`onUpdate`, injection sets `onUpdate` to `CASCADE` and sets
`onDelete` by the truthy nullability of the pre-existing target attribute
when the foreign key is already declared on the target, else of the merged
foreign-key spec; in the fresh-injection case this agrees with the
claim's merged-spec rule (`SET NULL` when nullable, else `CASCADE`). -/
theorem injectAttributes_referentialDefaults (a : HasOneAssoc) (source : SourceModel)
    (targetRaw : List (String × AttrSpec)) (opts : InjectOptions)
    (hc : opts.constraints ≠ some false) (hd : opts.onDelete = none)
    (hu : opts.onUpdate = none) :
    (HasOne.injectAttributes a source targetRaw opts).onUpdate = some "CASCADE" ∧
    (HasOne.injectAttributes a source targetRaw opts).onDelete =
      some (if attrNullTruthy ((alistLookup targetRaw a.foreignKey).getD
              (mergedForeignKeyAttr a source opts))
            then "SET NULL" else "CASCADE") ∧
    (alistLookup targetRaw a.foreignKey = none →
      (HasOne.injectAttributes a source targetRaw opts).onDelete =
        some (claimedOnDeleteChoice a source opts)) := by
  refine ⟨?_, ?_, ?_⟩
  · simp [HasOne.injectAttributes, hc, hu, jsOrDefault]
  · simp [HasOne.injectAttributes, hc, hd, jsOrDefault]
  · intro hfree
    cases hB : a.foreignKeyAttribute.allowNull.getD true <;>
      simp [HasOne.injectAttributes, hc, hd, hfree, jsOrDefault,
        claimedOnDeleteChoice, attrNullTruthy, mergedForeignKeyAttr, hB]

/-- Witness for C4 at a concrete fresh-target injection. -/
theorem injectAttributes_referentialDefaults_witness :
    (HasOne.injectAttributes c4Assoc c4Source [] {}).onUpdate = some "CASCADE" :=
  (injectAttributes_referentialDefaults c4Assoc c4Source [] {}
    (by decide) rfl rfl).1

/- ------------------------------------------------------------------ -/
/- Claim C6: Writer idempotence on an already-linked candidate.        -/
/- ------------------------------------------------------------------ -/

/-- Claim C6, counterexample: a bare key value `0` (JS-falsy) that equals
the currently linked record's primary key on every target primary-key
attribute still triggers a detach persistence call, because the equality
short-circuit additionally requires the candidate to be truthy; so the
claim's zero-detach guarantee is false for falsy bare keys. -/
theorem set_falsyBareKey_counterexample :
    (HasOne.set pAssoc pTM [exOldZero] userRec (.raw (.vint 0)) {}).oldInstance
        = some exOldZero ∧
    (∀ attr ∈ pTM.primaryKeyAttributes,
      exOldZero.rawGet attr = candidateGet (.raw (.vint 0)) attr) ∧
    (HasOne.set pAssoc pTM [exOldZero] userRec (.raw (.vint 0)) {}).writes ≠ [] := by
  decide

/-- Claim C6 (amended): when the currently linked record equals the
candidate on every target primary-key attribute (raw comparison, a bare
key standing for a record exposing that value) and the candidate is
JS-truthy (a record instance, or a bare key other than 0/""/null), `set`
performs zero detach and zero attach persistence calls. -/
theorem set_idempotentOnTruthyMatch (a : HasOneAssoc) (tm : TargetModel) (db : List Rec)
    (src : Rec) (c : Candidate) (options : GetOptions) (old : Rec)
    (hOld : (HasOne.set a tm db src c options).oldInstance = some old)
    (hT : c.truthy = true)
    (hEq : ∀ attr ∈ tm.primaryKeyAttributes, old.rawGet attr = candidateGet c attr) :
    (HasOne.set a tm db src c options).writes = [] := by
  rw [set_writes_eq]
  rw [set_oldInstance_eq] at hOld
  rw [hOld]
  have hall : (tm.primaryKeyAttributes.all
      fun attr => old.rawGet attr == candidateGet c attr) = true := by
    rw [List.all_eq_true]
    intro attr hattr
    exact beq_iff_eq.mpr (hEq attr hattr)
  simp [setWrites, alreadyAssociatedCheck, detachWrites, hT, hall]

/-- Witness for C6: a truthy bare key `7` matching the linked record's
primary key produces no persistence call. -/
theorem set_idempotentOnTruthyMatch_witness :
    (HasOne.set pAssoc pTM [exOldSeven] userRec (.raw (.vint 7)) {}).writes = [] :=
  set_idempotentOnTruthyMatch pAssoc pTM [exOldSeven] userRec (.raw (.vint 7)) {}
    exOldSeven (by decide) (by decide) (by decide)

/- ------------------------------------------------------------------ -/
/- Claim C7: detach-before-attach ordering.                            -/
/- ------------------------------------------------------------------ -/

/-- Claim C7: when `set` reassigns from a linked record to a different
truthy candidate, the trace of persistence calls is exactly the detach
save (old record with its foreign key nulled, persisting only that field
with the null-allowance override, marked association-internal) followed by
the attach save — never the opposite order; the detached state carries a
null foreign key and the attached state carries the source's source-key
value. -/
theorem set_detachThenAttach (a : HasOneAssoc) (tm : TargetModel) (db : List Rec)
    (src : Rec) (c : Candidate) (options : GetOptions) (old : Rec)
    (hOld : (HasOne.set a tm db src c options).oldInstance = some old)
    (hT : c.truthy = true)
    (hNe : ¬ ∀ attr ∈ tm.primaryKeyAttributes, old.rawGet attr = candidateGet c attr) :
    (HasOne.set a tm db src c options).writes =
      [{ record := old.setAttr a.foreignKey .vnull
         onlyFields := some [a.foreignKey]
         allowNull := [a.foreignKey]
         associationInternal := true },
       { record := attachRecord a tm src c }] ∧
    (old.setAttr a.foreignKey .vnull).rawGet a.foreignKey = .vnull ∧
    (attachRecord a tm src c).rawGet a.foreignKey = src.get a.sourceKeyAttribute := by
  have hall : (tm.primaryKeyAttributes.all
      fun attr => old.rawGet attr == candidateGet c attr) = false := by
    cases hc2 : tm.primaryKeyAttributes.all
        fun attr => old.rawGet attr == candidateGet c attr with
    | false => rfl
    | true =>
      exact absurd (fun attr hattr => beq_iff_eq.mp ((List.all_eq_true.mp hc2) attr hattr)) hNe
  refine ⟨?_, ?_, ?_⟩
  · rw [set_writes_eq]
    rw [set_oldInstance_eq] at hOld
    rw [hOld]
    simp [setWrites, alreadyAssociatedCheck, detachWrites, hT, hall]
  · simp [Rec.setAttr, Rec.rawGet, alistLookup_objInsert_self]
  · simp [attachRecord, Rec.setAttr, Rec.rawGet, alistLookup_objInsert_self]

/-- Witness for C7: reassigning from the linked record (pk 7) to the bare
key 9 yields the detach call first and the attach call second. -/
theorem set_detachThenAttach_witness :
    (HasOne.set pAssoc pTM [exOldSeven] userRec (.raw (.vint 9)) {}).writes =
      [{ record := exOldSeven.setAttr pAssoc.foreignKey .vnull
         onlyFields := some [pAssoc.foreignKey]
         allowNull := [pAssoc.foreignKey]
         associationInternal := true },
       { record := attachRecord pAssoc pTM userRec (.raw (.vint 9)) }] ∧
    (exOldSeven.setAttr pAssoc.foreignKey .vnull).rawGet pAssoc.foreignKey = .vnull ∧
    (attachRecord pAssoc pTM userRec (.raw (.vint 9))).rawGet pAssoc.foreignKey
      = userRec.get pAssoc.sourceKeyAttribute :=
  set_detachThenAttach pAssoc pTM [exOldSeven] userRec (.raw (.vint 9)) {}
    exOldSeven (by decide) (by decide) (by decide)

/- ------------------------------------------------------------------ -/
/- Claim C8: scope-disabled read and null-clear no-op.                 -/
/- ------------------------------------------------------------------ -/

/-- Claim C8: the Writer's initial read always queries with the target
scope disabled, whatever the caller options say; and a falsy (null/absent)
candidate with no currently linked record produces no persistence call and
resolves to a null result. -/
theorem set_unscopedRead_nullClearNoop (a : HasOneAssoc) (tm : TargetModel)
    (db : List Rec) (src : Rec) (c : Candidate) (options : GetOptions) :
    (∀ q ∈ (HasOne.set a tm db src c options).readQueries,
      q.scopeSetting = .unscoped) ∧
    (c.truthy = false → (HasOne.set a tm db src c options).oldInstance = none →
      (HasOne.set a tm db src c options).writes = [] ∧
      (HasOne.set a tm db src c options).result = none) := by
  constructor
  · intro q hq
    rw [set_readQueries_eq] at hq
    simp only [List.mem_singleton] at hq
    subst hq
    rfl
  · intro hT hOld
    rw [set_oldInstance_eq] at hOld
    rw [set_writes_eq, set_result_eq, hOld]
    simp [setWrites, alreadyAssociatedCheck, detachWrites, hT]

/-- Witness for C8: clearing an unlinked relationship performs no write
and resolves null. -/
theorem set_unscopedRead_nullClearNoop_witness :
    (HasOne.set pAssoc pTM [] userRec (.raw .vnull) {}).writes = [] ∧
    (HasOne.set pAssoc pTM [] userRec (.raw .vnull) {}).result = none :=
  (set_unscopedRead_nullClearNoop pAssoc pTM [] userRec (.raw .vnull) {}).2
    (by decide) (by decide)

/- ------------------------------------------------------------------ -/
/- Claim C9: Creator payload construction and delegation.              -/
/- ------------------------------------------------------------------ -/

/-- Claim C9: the values handed to the target's `create` resolve to the
source's source-key value on the foreign key, to the scope's value on
every relationship-scope attribute, and to the caller's value elsewhere;
a supplied field-selection list is extended with the scope attribute names
and the foreign key; and the target `create` result (success or error) is
returned unchanged. -/
theorem create_payloadCharacterization (a : HasOneAssoc)
    (engineCreate : List (String × Val) → Option (List String) → Except EngineError Rec)
    (src : Rec) (values : List (String × Val)) (fields : Option (List String))
    (hnd : (a.scope.map Prod.fst).Nodup) :
    (∀ k, alistLookup (HasOne.create a engineCreate src values fields).payloadValues k =
      if k = a.foreignKey then some (src.get a.sourceKeyAttribute)
      else
        match alistLookup a.scope k with
        | some v => some v
        | none => alistLookup values k) ∧
    ((HasOne.create a engineCreate src values fields).payloadFields
      = fields.map fun fs => fs ++ a.scope.map Prod.fst ++ [a.foreignKey]) ∧
    ((HasOne.create a engineCreate src values fields).created
      = engineCreate (HasOne.create a engineCreate src values fields).payloadValues
          (HasOne.create a engineCreate src values fields).payloadFields) := by
  refine ⟨?_, ?_, rfl⟩
  · intro k
    by_cases hk : k = a.foreignKey
    · subst hk
      simp [HasOne.create, createFoldSplit, alistLookup_objInsert_self]
    · simp only [HasOne.create, createFoldSplit]
      rw [alistLookup_objInsert_ne _ hk]
      rw [foldInsertLookup a.scope values k hnd]
      rw [if_neg hk]
      cases alistLookup a.scope k <;> rfl
  · simp only [HasOne.create, createFoldSplit]
    cases fields with
    | none => rfl
    | some fs => simp

/-- Witness for C9: scoped creation over `{city: "X"}` with fields
selection, on the `kind: "primary"` scope. -/
theorem create_payloadCharacterization_witness :
    alistLookup (HasOne.create sAssoc okEngineCreate userRec
        [("city", .vstr "X")] (some ["city"])).payloadValues "kind"
      = some (.vstr "primary") := by
  have h := (create_payloadCharacterization sAssoc okEngineCreate userRec
    [("city", .vstr "X")] (some ["city"]) (by decide)).1 "kind"
  rw [h]
  decide

/- ------------------------------------------------------------------ -/
/- Claim C10: Creator mutates caller arguments; Reader clones options.  -/
/- ------------------------------------------------------------------ -/

/-- Claim C10: the Creator's caller-visible `values`/`options.fields`
after the call are the very objects handed to the target `create`
(mutation in place, no clone): the caller's values gained the foreign-key
entry and the scope entries (overwriting same-named caller entries), and a
present fields list gained the scope keys and the foreign key; the
Reader's `get`, by contrast, leaves the caller's options unchanged. -/
theorem create_mutatesCaller_get_preservesOptions (a : HasOneAssoc)
    (engineCreate : List (String × Val) → Option (List String) → Except EngineError Rec)
    (src : Rec) (values : List (String × Val)) (fields : Option (List String))
    (tm : TargetModel) (db : List Rec) (input : GetInput) (options : GetOptions)
    (hnd : (a.scope.map Prod.fst).Nodup) :
    ((HasOne.create a engineCreate src values fields).callerValuesAfter
      = (HasOne.create a engineCreate src values fields).payloadValues) ∧
    ((HasOne.create a engineCreate src values fields).callerFieldsAfter
      = (HasOne.create a engineCreate src values fields).payloadFields) ∧
    (alistLookup (HasOne.create a engineCreate src values fields).callerValuesAfter
        a.foreignKey = some (src.get a.sourceKeyAttribute)) ∧
    (∀ k v, (k, v) ∈ a.scope → k ≠ a.foreignKey →
      alistLookup (HasOne.create a engineCreate src values fields).callerValuesAfter k
        = some v) ∧
    (∀ fs, fields = some fs →
      (HasOne.create a engineCreate src values fields).callerFieldsAfter
        = some (fs ++ a.scope.map Prod.fst ++ [a.foreignKey])) ∧
    ((HasOne.get a tm db input options).callerOptionsAfter = options) := by
  refine ⟨rfl, rfl, ?_, ?_, ?_, get_callerOptionsAfter a tm db input options⟩
  · simp [HasOne.create, createFoldSplit, alistLookup_objInsert_self]
  · intro k v hkv hk
    simp only [HasOne.create, createFoldSplit]
    rw [alistLookup_objInsert_ne _ hk, foldInsertLookup a.scope values k hnd,
      alistLookup_of_mem_nodup hkv hnd]
  · intro fs hfs
    subst hfs
    simp [HasOne.create, createFoldSplit]

/-- Witness for C10: the concrete scoped creation mutates the caller's
fields list in place to `["city", "kind", "profileId"]`. -/
theorem create_mutatesCaller_witness :
    (HasOne.create sAssoc okEngineCreate userRec [("city", .vstr "X")]
        (some ["city"])).callerFieldsAfter = some ["city", "kind", "profileId"] := by
  have h := (create_mutatesCaller_get_preservesOptions sAssoc okEngineCreate userRec
    [("city", .vstr "X")] (some ["city"]) pTM [] (.single userRec) {} (by decide)).2.2.2.2.1
    ["city"] rfl
  rw [h]
  decide

/- ------------------------------------------------------------------ -/
/- Claim C5: filter construction of the Reader.                        -/
/- ------------------------------------------------------------------ -/

/-- Claim C5, counterexample: a relationship scope keyed by the foreign
key itself overwrites (not ANDs) the foreign-key constraint — the single
query issued for a source record with source key `3` is matched by a
record whose foreign key is `5`, which violates the claimed `foreignKey =
sourceKeyValue` constraint. -/
theorem get_scopeOverridesForeignKey_counterexample :
    ((HasOne.get cAssoc {} [] (.single cInst) {}).queries.map
        fun q => cRec.matchesWhere q.filter) = [true] ∧
    matchesCond (cRec.rawGet cAssoc.foreignKey)
      (.ceq (cInst.get cAssoc.sourceKey)) = false := by
  decide

/-- Claim C5 (amended): the issued filter keys the foreign key to equality
with the single source record's source-key value, or to `IN` over the
as-is list of all source records' source-key values (duplicates
preserved); the relationship scope is object-merged into the filter, which
is a logical AND provided the scope does not use the foreign-key name (on
collision the scope entry replaces the foreign-key constraint), and any
caller-supplied filter is intersected through an explicit AND node. -/
theorem get_filterConstruction (a : HasOneAssoc) (tm : TargetModel) (db : List Rec)
    (inst : Rec) (rs : List Rec) (options : GetOptions)
    (hnd : (a.scope.map Prod.fst).Nodup)
    (hfk : a.foreignKey ∉ a.scope.map Prod.fst) :
    ((HasOne.get a tm db (.single inst) options).queries =
      [{ kind := .findOne
         scopeSetting := resolveScopeSetting options
         schemaSetting := options.schema
         filter := optWrap (.wobj ((a.foreignKey, Cond.ceq (inst.get a.sourceKey))
           :: scopeAsWhere a.scope)) options.whereOpt }]) ∧
    ((HasOne.get a tm db (.multi rs) options).queries =
      [{ kind := .findAll
         scopeSetting := resolveScopeSetting options
         schemaSetting := options.schema
         filter := optWrap (.wobj ((a.foreignKey,
             Cond.cin (rs.map fun i => i.get a.sourceKey))
           :: scopeAsWhere a.scope)) options.whereOpt }]) ∧
    (∀ (r : Rec) (c0 : Cond),
      r.matchesWhere (optWrap (.wobj ((a.foreignKey, c0) :: scopeAsWhere a.scope))
          options.whereOpt)
        = (matchesCond (r.rawGet a.foreignKey) c0
            && r.matchesObj (scopeAsWhere a.scope)
            && match options.whereOpt with
               | some w => r.matchesWhere w
               | none => true)) := by
  have hfold : ∀ c0 : Cond,
      a.scope.foldl (fun w kv => objInsert w kv.1 (Cond.ceq kv.2)) [(a.foreignKey, c0)]
        = (a.foreignKey, c0) :: scopeAsWhere a.scope := by
    intro c0
    have hfresh : ∀ kv ∈ a.scope, kv.1 ∉ ([(a.foreignKey, c0)].map Prod.fst) := by
      intro kv hkv
      simp only [List.map_cons, List.map_nil, List.mem_singleton]
      intro hcontra
      exact hfk (hcontra ▸ List.mem_map_of_mem Prod.fst hkv)
    simpa using scopeFoldAppend a.scope [(a.foreignKey, c0)] hfresh hnd
  refine ⟨?_, ?_, ?_⟩
  · rw [get_queries]
    simp [builtQuery, builtFilter, baseWhere, hfold]
  · rw [get_queries]
    simp [builtQuery, builtFilter, baseWhere, hfold]
  · intro r c0
    cases hw : options.whereOpt <;>
      simp [optWrap, Rec.matchesWhere, Rec.matchesObj, Bool.and_assoc]

/-- Witness for C5: the single-record filter for the scoped association at
source key 1. -/
theorem get_filterConstruction_witness :
    (HasOne.get sAssoc pTM [] (.single userRec) {}).queries =
      [{ kind := .findOne
         scopeSetting := resolveScopeSetting {}
         schemaSetting := GetOptions.schema {}
         filter := optWrap (.wobj ((sAssoc.foreignKey,
             Cond.ceq (userRec.get sAssoc.sourceKey))
           :: scopeAsWhere sAssoc.scope)) (GetOptions.whereOpt {}) }] :=
  (get_filterConstruction sAssoc pTM [] userRec [] {} (by decide) (by decide)).1

/- ------------------------------------------------------------------ -/
/- Claim C1: multi-record batching and result mapping.                 -/
/- ------------------------------------------------------------------ -/

/-- Claim C1, counterexample: two source records sharing the raw
source-key value 1 collapse into a single mapping entry (JS object keys
are unique), so the mapping does not contain exactly N entries for N
source records. -/
theorem get_multi_duplicateKeys_counterexample :
    [userRec, userRec].length = 2 ∧
    (tableOf (HasOne.get pAssoc pTM [] (.multi [userRec, userRec]) {})).length = 1 := by
  decide

/-- Claim C1 (amended): in multi-record mode the Reader issues exactly one
find-all query, and — provided the source records' raw source-key values
render to pairwise distinct object keys, the source-key reads are
untransformed (raw equals non-raw), and the relationship scope does not
use the foreign-key name — the returned mapping has exactly N entries,
keyed in order by each source record's raw source-key value, each entry
being null or a target record whose raw foreign-key value renders to that
key. -/
theorem get_multiBatchMapping (a : HasOneAssoc) (tm : TargetModel) (db : List Rec)
    (rs : List Rec) (options : GetOptions)
    (_hne : rs ≠ [])
    (hnd : (rs.map (sourceKeyRender a)).Nodup)
    (hraw : ∀ i ∈ rs, i.get a.sourceKey = i.rawGet a.sourceKey)
    (hsnd : (a.scope.map Prod.fst).Nodup)
    (hfk : a.foreignKey ∉ a.scope.map Prod.fst) :
    ((HasOne.get a tm db (.multi rs) options).queries.length = 1) ∧
    (∀ q ∈ (HasOne.get a tm db (.multi rs) options).queries, q.kind = .findAll) ∧
    (∃ m, (HasOne.get a tm db (.multi rs) options).output = .table m ∧
      m.map Prod.fst = rs.map (sourceKeyRender a) ∧
      m.length = rs.length ∧
      ∀ p ∈ m, p.2 = none ∨ ∃ r, p.2 = some r ∧ foreignKeyRender a r = p.1) := by
  have hq := get_queries a tm db (.multi rs) options
  refine ⟨by rw [hq]; rfl, ?_, ?_⟩
  · intro q hmem
    rw [hq] at hmem
    simp only [List.mem_singleton] at hmem
    subst hmem
    rfl
  · have hinit : initialTable a rs
        = rs.map fun i => (sourceKeyRender a i, (none : Option Rec)) :=
      initialTableEq a rs hnd
    have hinitkeys : (initialTable a rs).map Prod.fst = rs.map (sourceKeyRender a) := by
      rw [hinit, List.map_map]
      rfl
    have hfresh : ∀ kv ∈ a.scope, kv.1 ∉ ((baseWhere a (.multi rs)).map Prod.fst) := by
      intro kv hkv
      simp only [baseWhere, List.map_cons, List.map_nil, List.mem_singleton]
      intro hcontra
      exact hfk (hcontra ▸ List.mem_map_of_mem Prod.fst hkv)
    have hfold := scopeFoldAppend a.scope (baseWhere a (.multi rs)) hfresh hsnd
    simp only [baseWhere] at hfold
    have hfilter : (builtQuery a (.multi rs) options).filter
        = optWrap (.wobj ((a.foreignKey, Cond.cin (rs.map fun i => i.get a.sourceKey))
            :: scopeAsWhere a.scope)) options.whereOpt := by
      simp [builtQuery, builtFilter, baseWhere, hfold]
    have hresmem : ∀ r ∈ findAllQ tm db (builtQuery a (.multi rs) options),
        foreignKeyRender a r ∈ (initialTable a rs).map Prod.fst := by
      intro r hr
      rw [hinitkeys]
      have hmatch : queryMatches tm (builtQuery a (.multi rs) options) r = true :=
        (List.mem_filter.mp hr).2
      have hwq : r.matchesWhere (builtQuery a (.multi rs) options).filter = true :=
        ((Bool.and_eq_true _ _).mp hmatch).1
      rw [hfilter] at hwq
      have hobj : r.matchesObj ((a.foreignKey,
          Cond.cin (rs.map fun i => i.get a.sourceKey)) :: scopeAsWhere a.scope) = true := by
        cases hw : options.whereOpt with
        | none =>
          rw [hw] at hwq
          exact hwq
        | some w =>
          rw [hw] at hwq
          exact ((Bool.and_eq_true _ _).mp hwq).1
      have hcond : matchesCond (r.rawGet a.foreignKey)
          (Cond.cin (rs.map fun i => i.get a.sourceKey)) = true := by
        simp only [Rec.matchesObj, List.all_cons, Bool.and_eq_true] at hobj
        exact hobj.1
      have hv : r.rawGet a.foreignKey ∈ rs.map fun i => i.get a.sourceKey := by
        simpa [matchesCond] using hcond
      obtain ⟨i, hi, hieq⟩ := List.mem_map.mp hv
      have hkr : foreignKeyRender a r = sourceKeyRender a i := by
        simp [foreignKeyRender, sourceKeyRender, ← hieq, hraw i hi]
      rw [hkr]
      exact List.mem_map_of_mem (sourceKeyRender a) hi
    have hinitInv : ∀ p ∈ initialTable a rs,
        p.2 = none ∨ ∃ r, p.2 = some r ∧ foreignKeyRender a r = p.1 := by
      intro p hp
      rw [hinit] at hp
      obtain ⟨i, hi, hpe⟩ := List.mem_map.mp hp
      exact Or.inl (by rw [← hpe])
    have hres := fillFoldInvariant (foreignKeyRender a)
      (findAllQ tm db (builtQuery a (.multi rs) options)) (initialTable a rs)
      hresmem hinitInv
    have hmapfst : (filledTable a rs
        (findAllQ tm db (builtQuery a (.multi rs) options))).map Prod.fst
        = rs.map (sourceKeyRender a) := hres.1.trans hinitkeys
    refine ⟨filledTable a rs (findAllQ tm db (builtQuery a (.multi rs) options)),
      get_output_multi a tm db rs options, hmapfst, ?_, hres.2⟩
    have hlen := congrArg List.length hmapfst
    simpa using hlen

/-- Witness for C1 at two source records with distinct keys: exactly one
query is issued. -/
theorem get_multiBatchMapping_witness :
    (HasOne.get sAssoc pTM [] (.multi [userRec, userRec2]) {}).queries.length = 1 :=
  (get_multiBatchMapping sAssoc pTM [] [userRec, userRec2] {}
    (by decide) (by decide) (by decide) (by decide) (by decide)).1

end HasOneSpec
